import Mathlib

/-!
Verification development for the BodyBack Gmail listener.

The repository's core logic (subject classification, email-body parsing,
field validation, and the duplicate-checking persistence gate) is shallowly
embedded below.  Python strings are modelled as Lean `String`s and most
character-level work happens on `List Char`.  Python's whitespace handling
(`str.strip`, the regex class `\s`, `str.split()`) is modelled over the six
ASCII whitespace characters; the repository's subject fragments and parsed
fields are ASCII, so this matches the source behaviour on the data the
program handles.  Python `str.lower` is modelled as ASCII lowercasing.
-/

namespace BodyBack

/-- The six ASCII whitespace characters recognised by Python's `str.strip`,
`str.split()` and the regex class `\s`. -/
def isPySpace (c : Char) : Bool :=
  c == ' ' || c == '\t' || c == '\n' || c == '\r' || c == '\x0b' || c == '\x0c'

/-- ASCII digit test, modelling the regex class `\d` / `\D` complement. -/
def isAsciiDigit (c : Char) : Bool :=
  '0' ≤ c && c ≤ '9'

/-- ASCII letter test, modelling the regex class `[a-zA-Z]`. -/
def isAsciiAlpha (c : Char) : Bool :=
  ('a' ≤ c && c ≤ 'z') || ('A' ≤ c && c ≤ 'Z')

/-- ASCII lowercasing of a single character, modelling Python `str.lower`
on the ASCII range: code points 65-90 shift up by 32, all else is fixed. -/
def asciiLower (c : Char) : Char :=
  if 65 ≤ c.toNat ∧ c.toNat ≤ 90 then Char.ofNat (c.toNat + 32) else c

/-- Drop trailing ASCII whitespace, the right half of Python `str.strip`. -/
def dropTrailingWs : List Char → List Char
  | [] => []
  | c :: t =>
    match dropTrailingWs t with
    | [] => if isPySpace c then [] else [c]
    | r => c :: r

/-- Python `str.strip`: drop leading and trailing whitespace. -/
def pyStripChars (cs : List Char) : List Char :=
  dropTrailingWs (cs.dropWhile isPySpace)

/-- Python `str.strip` on `String`s. -/
def pyStrip (s : String) : String :=
  String.mk (pyStripChars s.toList)

/-- Replace every maximal run of whitespace by a single space, modelling
`re.sub(r'\s+', ' ', ·)`. -/
def collapseWs : List Char → List Char
  | [] => []
  | c :: t =>
    if isPySpace c then ' ' :: collapseWs (t.dropWhile isPySpace)
    else c :: collapseWs t
termination_by l => l.length
decreasing_by
  · simpa using Nat.lt_succ_of_le (List.dropWhile_sublist isPySpace).length_le
  · simp

/-- Python `str.split()` (no separator): the maximal whitespace-free words. -/
def wordsBy : List Char → List (List Char)
  | [] => []
  | c :: t =>
    if isPySpace c then wordsBy t
    else (c :: t.takeWhile (fun x => !isPySpace x)) ::
      wordsBy (t.dropWhile (fun x => !isPySpace x))
termination_by l => l.length
decreasing_by
  · simp
  · simpa using Nat.lt_succ_of_le (List.dropWhile_sublist _).length_le

/-- `' '.join`: join words with a single space. -/
def joinSp : List (List Char) → List Char
  | [] => []
  | [w] => w
  | w :: rest => w ++ ' ' :: joinSp rest

/-- The first character, if any, is not whitespace. -/
def headNotWs : List Char → Bool
  | [] => true
  | c :: _ => !isPySpace c

/-- The last character, if any, is not whitespace. -/
def lastNotWs : List Char → Bool
  | [] => true
  | [c] => !isPySpace c
  | _ :: c :: t => lastNotWs (c :: t)

/- ----------------------------------------------------------------
Field validators, translated from `src/database/validators.py`.
---------------------------------------------------------------- -/

/-- `validators.is_valid_name`: reject empty input or trimmed length under 2,
then require at least one `[a-zA-Z]` character in the (untrimmed) input. -/
def is_valid_name (name : String) : Bool :=
  if name = "" then false
  else if (pyStripChars name.toList).length < 2 then false
  else name.toList.any isAsciiAlpha

/-- `validators.split_name`: strip and split on whitespace; zero tokens give
two empty components, one token becomes the first name, two tokens map
directly, and with three or more tokens all but the last (joined by single
spaces) form the first name and the last token the last name. -/
def split_name (full_name : String) : String × String :=
  if full_name = "" then ("", "")
  else
    match wordsBy (pyStripChars full_name.toList) with
    | [] => ("", "")
    | [t] => (String.mk t, "")
    | [t1, t2] => (String.mk t1, String.mk t2)
    | t1 :: t2 :: t3 :: rest =>
      (String.mk (joinSp (t1 :: t2 :: t3 :: rest).dropLast),
       String.mk ((t1 :: t2 :: t3 :: rest).getLastD []))

/-- `validators.is_valid_email`: length at least 5, an `@` present, and a `.`
somewhere after the last `@` (Python `'.' in email.split('@')[-1]`). -/
def is_valid_email (email : String) : Bool :=
  if email = "" then false
  else if email.toList.length < 5 then false
  else email.toList.contains '@' &&
    ((email.toList.reverse.takeWhile (fun c => c != '@')).reverse).contains '.'

/-- `validators.is_valid_phone`: after deleting every non-digit character
(`re.sub(r'\D', '', ·)`) at least 9 digits must remain. -/
def is_valid_phone (phone : String) : Bool :=
  if phone = "" then false
  else 9 ≤ (phone.toList.filter isAsciiDigit).length

/-- `validators.clean_text`: empty input yields the empty string; otherwise
strip the ends and collapse each internal whitespace run to a single space. -/
def clean_text (text : String) : String :=
  if text = "" then ""
  else String.mk (collapseWs (pyStripChars text.toList))

/- ----------------------------------------------------------------
Parsers, translated from `src/database/parsers.py`.
---------------------------------------------------------------- -/

/-- The record assembled by the parsers: the Python dict with keys
`name`, `phone`, `email`, `location`, `customer_data` (a missing key is
modelled as the empty string, matching `dict.get(k, '')`). -/
structure LeadData where
  name : String
  phone : String
  email : String
  location : String
  customer_data : String
deriving DecidableEq, Repr

/-- Python `str.split('\n')`: split at every newline, keeping empty pieces. -/
def splitOnNl : List Char → List (List Char)
  | [] => [[]]
  | c :: t =>
    if c = '\n' then [] :: splitOnNl t
    else
      match splitOnNl t with
      | [] => [[c]]
      | w :: rest => (c :: w) :: rest

/-- The line preprocessing of `parse_new_lead`:
`[line.strip() for line in email_body.strip().split('\n') if line.strip()]`. -/
def newLeadLines (body : String) : List String :=
  (((splitOnNl (pyStripChars body.toList)).map pyStripChars).filter
    (fun l => l ≠ [])).map String.mk

/-- `parsers.parse_new_lead`: demand at least four non-empty trimmed lines
(name, phone, email, location, remaining lines joined as notes), then
validate name, phone and email in that order; any failure yields `none`. -/
def parse_new_lead (body : String) : Option LeadData :=
  let lines := newLeadLines body
  if lines.length < 4 then none
  else
    let data : LeadData :=
      { name := lines.getD 0 ""
        phone := lines.getD 1 ""
        email := lines.getD 2 ""
        location := lines.getD 3 ""
        customer_data :=
          if 4 < lines.length then String.intercalate "\n" (lines.drop 4) else "" }
    if !is_valid_name data.name then none
    else if !is_valid_phone data.phone then none
    else if !is_valid_email data.email then none
    else some data

/-- The validation gate closing `parsers.parse_contact_form` (its final
lines): reject when the extracted name fails `is_valid_name`; reject when
the extracted phone fails `is_valid_phone` while the extracted location is
empty; otherwise return the extracted record.  The regex cascade that
produces the record from the raw body is abstracted here by taking the
already-extracted field values as the input. -/
def parse_contact_form_gate (data : LeadData) : Option LeadData :=
  if !is_valid_name data.name then none
  else if !is_valid_phone data.phone && data.location = "" then none
  else some data

/- ----------------------------------------------------------------
Subject classifier, translated from `src/listener.py`.
---------------------------------------------------------------- -/

/-- The closed enumeration of watched email templates (the keys of the
`WATCHED_SUBJECTS` dict in `listener.py`). -/
inductive EmailType
  | new_lead
  | home_page
  | packages_page
deriving DecidableEq, Repr

/-- `listener.WATCHED_SUBJECTS`: template kind paired with its canonical
subject fragment, in the dict's (insertion-ordered) iteration order. -/
def WATCHED_SUBJECTS : List (EmailType × String) :=
  [(EmailType.new_lead, "NEW M LEAD"),
   (EmailType.home_page, "SA Home page message from \"BodyBack\""),
   (EmailType.packages_page, "SA Packages page message from \"BodyBack\"")]

/-- ASCII lowercasing of a character list (Python `str.lower`). -/
def lowerList (cs : List Char) : List Char :=
  cs.map asciiLower

/-- Boolean starts-with test on character lists. -/
def listStartsWith : List Char → List Char → Bool
  | [], _ => true
  | _ :: _, [] => false
  | a :: n, c :: h => a == c && listStartsWith n h

/-- Boolean substring-containment test (Python `needle in hay`). -/
def listContainsSub (needle : List Char) : List Char → Bool
  | [] => needle.isEmpty
  | c :: t => listStartsWith needle (c :: t) || listContainsSub needle t

/-- `re.sub(r'^Fwd:\s*', '', subject, flags=re.IGNORECASE)`: when the subject
starts with the four characters `Fwd:` (letters case-insensitive), remove
them together with the following whitespace run; otherwise leave it alone.
The pattern is anchored, so at most one removal happens. -/
def stripFwd (cs : List Char) : List Char :=
  match cs with
  | c0 :: c1 :: c2 :: c3 :: rest =>
    if asciiLower c0 = 'f' ∧ asciiLower c1 = 'w' ∧ asciiLower c2 = 'd' ∧ c3 = ':' then
      rest.dropWhile isPySpace
    else cs
  | _ => cs

/-- `listener.identify_email_type`: an empty subject is unclassified;
otherwise drop a leading forward prefix and return the first entry of
`WATCHED_SUBJECTS` whose lowercased fragment occurs inside the lowercased
cleaned subject. -/
def identify_email_type (subject : String) : Option EmailType :=
  if subject = "" then none
  else
    let clean := stripFwd subject.toList
    (WATCHED_SUBJECTS.find? fun p =>
      listContainsSub (lowerList p.2.toList) (lowerList clean)).map Prod.fst

/- ----------------------------------------------------------------
Persistence boundary, translated from `src/database/models.py`.
The PostgreSQL store is modelled as explicit state: a `users` table, a
`customers` table (whose `profile_data` JSON carries the gmail message id),
and a serial id counter.  A raised `psycopg2` connectivity error is
modelled by `Except`: raw operations return `Except DBError α` and the
`try/except` blocks of the source turn the error into the source's
fallback value.  The random `uuid4` token used for placeholder email
addresses is passed in as an explicit `uuid` argument.
---------------------------------------------------------------- -/

/-- A transient storage failure (connection refused, network down). -/
inductive DBError
  | connectionError
deriving DecidableEq, Repr

/-- A row of the `users` table, with the columns `save_lead` inserts. -/
structure UserRow where
  id : Nat
  email : String
  password_hash : String
  first_name : String
  last_name : String
  phone_number : String
  location : String
  roles : List String
  active : Bool
deriving DecidableEq, Repr

/-- The `profile_data` JSON stored in the `customers` table.  The
`processed_at` wall-clock timestamp is outside the model. -/
structure ProfileData where
  gmail_id : String
  source : EmailType
  customer_data : String
  original_email_subject : String
  original_email_from : String
  original_email_date : String
  is_forward : Bool
  has_real_email : Bool
  primary_contact_method : String
deriving DecidableEq, Repr

/-- A row of the `customers` table. -/
structure CustomerRow where
  user_id : Nat
  profile : ProfileData
deriving DecidableEq, Repr

/-- The storage state: connectivity flag, both tables, and the serial id
counter backing `RETURNING id`. -/
structure DBState where
  connected : Bool
  users : List UserRow
  customers : List CustomerRow
  next_id : Nat
deriving DecidableEq, Repr

/-- The email record assembled by `listener.get_email_content` (the
`email_type` field is computed by `identify_email_type` and handed to the
processing functions by their caller). -/
structure EmailContent where
  id : String
  subject : String
  sender : String
  date : String
  body : String
  is_forward : Bool
deriving DecidableEq, Repr

/-- The raw duplicate-delivery query of
`EmailProcessor.email_already_processed`: select from `customers` where
`profile_data->>'gmail_id'` equals the message id; raises when the store
is unreachable. -/
def email_already_processed_q (st : DBState) (email_id : String) :
    Except DBError Bool :=
  if st.connected then
    .ok (st.customers.any fun c => c.profile.gmail_id == email_id)
  else .error .connectionError

/-- `EmailProcessor.email_already_processed`: the raw query wrapped in the
source's `try/except`, which logs and returns `False` on any error. -/
def email_already_processed (st : DBState) (email_id : String) : Bool :=
  match email_already_processed_q st email_id with
  | .ok r => r
  | .error _ => false

/-- The raw natural-key query of `EmailProcessor.lead_already_exists`:
for the contact-form templates compare the stripped phone against
`users.phone_number` (when non-empty), for the structured template compare
the stripped email against `users.email` (when non-empty); otherwise no
query matches.  Raises when the store is unreachable. -/
def lead_already_exists_q (st : DBState) (parsed : LeadData)
    (email_type : EmailType) : Except DBError Bool :=
  if st.connected then
    .ok (
      if email_type = EmailType.home_page ∨ email_type = EmailType.packages_page then
        let phone := pyStrip parsed.phone
        if phone ≠ "" then st.users.any fun u => u.phone_number == phone
        else false
      else if email_type = EmailType.new_lead then
        let email := pyStrip parsed.email
        if email ≠ "" then st.users.any fun u => u.email == email
        else false
      else false)
  else .error .connectionError

/-- `EmailProcessor.lead_already_exists`: the raw query wrapped in the
source's `try/except`, which logs and returns `False` on any error. -/
def lead_already_exists (st : DBState) (parsed : LeadData)
    (email_type : EmailType) : Bool :=
  match lead_already_exists_q st parsed email_type with
  | .ok r => r
  | .error _ => false

/-- The raw insert section of `LeadSaver.save_lead` (the
`with get_connection()` block): insert the user row, build the profile
data, insert the customer row and commit — atomically, since an error
rolls the open transaction back.  Raises when the store is unreachable. -/
def LeadSaver_insert_q (st : DBState) (content : EmailContent)
    (email_type : EmailType) (d : LeadData) (email_address : String)
    (first_name last_name : String) : Except DBError (Nat × DBState) :=
  if st.connected then
    let user_id := st.next_id
    let profile : ProfileData :=
      { gmail_id := content.id
        source := email_type
        customer_data := d.customer_data
        original_email_subject := content.subject
        original_email_from := content.sender
        original_email_date := content.date
        is_forward := content.is_forward
        has_real_email := pyStrip d.email ≠ "" && is_valid_email d.email
        primary_contact_method :=
          if email_type = EmailType.home_page ∨ email_type = EmailType.packages_page
          then "phone" else "email" }
    .ok (user_id,
      { st with
        users := st.users ++
          [{ id := user_id, email := email_address,
             password_hash := "lead_no_password",
             first_name := first_name, last_name := last_name,
             phone_number := d.phone, location := d.location,
             roles := ["lead"], active := true }]
        customers := st.customers ++ [{ user_id := user_id, profile := profile }]
        next_id := st.next_id + 1 })
  else .error .connectionError

/-- `LeadSaver.save_lead`: refuse absent parse results, split the name,
substitute a placeholder address when the template carries no email
(contact forms) or the supplied email is empty or invalid (structured
template), then run the insert; the surrounding `try/except` turns any
storage error into a `None` result with the store untouched.  `uuid`
models the random `str(uuid.uuid4())[:8]` token. -/
def LeadSaver_save_lead (uuid : String) (st : DBState)
    (content : EmailContent) (email_type : EmailType)
    (parsed : Option LeadData) : Option Nat × DBState :=
  match parsed with
  | none => (none, st)
  | some d =>
    let fl := split_name d.name
    let email0 := pyStrip d.email
    let email_address :=
      if email_type = EmailType.home_page ∨ email_type = EmailType.packages_page then
        "contact_" ++ uuid ++ "@bodyback-lead.local"
      else if email_type = EmailType.new_lead then
        if email0 = "" ∨ is_valid_email email0 = false then
          "lead_" ++ uuid ++ "@bodyback-lead.local"
        else email0
      else email0
    match LeadSaver_insert_q st content email_type d email_address fl.1 fl.2 with
    | .ok r => (some r.1, r.2)
    | .error _ => (none, st)

/-- `BodyBackDB.save_lead`: parse the body with the template's extractor
(`parse_new_lead` for the structured template, the contact-form cascade —
passed in as `parseCF` — otherwise), refuse absent results, skip
natural-key duplicates, then hand off to `LeadSaver.save_lead`. -/
def BodyBackDB_save_lead (parseCF : String → Option LeadData) (uuid : String)
    (st : DBState) (content : EmailContent) (email_type : EmailType) :
    Option Nat × DBState :=
  let parsed :=
    if email_type = EmailType.new_lead then parse_new_lead content.body
    else parseCF content.body
  match parsed with
  | none => (none, st)
  | some d =>
    if lead_already_exists st d email_type then (none, st)
    else LeadSaver_save_lead uuid st content email_type (some d)

/-- `listener.process_watched_email`: the idempotency pre-check followed by
the save; returns the resulting storage state. -/
def process_watched_email (parseCF : String → Option LeadData) (uuid : String)
    (st : DBState) (content : EmailContent) (email_type : EmailType) : DBState :=
  if !email_already_processed st content.id then
    (BodyBackDB_save_lead parseCF uuid st content email_type).2
  else st

/-- Number of persisted customer records carrying a given gmail message id. -/
def countGmail (st : DBState) (email_id : String) : Nat :=
  (st.customers.filter fun c => c.profile.gmail_id == email_id).length

/- ----------------------------------------------------------------
Call-trace instrumentation of the per-message processing loop
(`listener.process_message`, lines 240-262): the same control flow as
above, recording each call crossing a component boundary.
---------------------------------------------------------------- -/

/-- A boundary call made while processing one message: a read query against
the store (`email_already_processed` / `lead_already_exists`), an insert
attempt, an extractor invocation, or a field-validator invocation. -/
inductive CallEvent
  | persistQuery
  | persistInsert
  | extractCall
  | validateCall
deriving DecidableEq, Repr

/-- `parse_new_lead` with its validator invocations recorded: the name,
phone and email validators run in order, stopping at the first failure. -/
def parse_new_lead_ev (body : String) : Option LeadData × List CallEvent :=
  let lines := newLeadLines body
  if lines.length < 4 then (none, [])
  else
    let data : LeadData :=
      { name := lines.getD 0 ""
        phone := lines.getD 1 ""
        email := lines.getD 2 ""
        location := lines.getD 3 ""
        customer_data :=
          if 4 < lines.length then String.intercalate "\n" (lines.drop 4) else "" }
    if !is_valid_name data.name then (none, [CallEvent.validateCall])
    else if !is_valid_phone data.phone then
      (none, [CallEvent.validateCall, CallEvent.validateCall])
    else if !is_valid_email data.email then
      (none, [CallEvent.validateCall, CallEvent.validateCall, CallEvent.validateCall])
    else (some data, [CallEvent.validateCall, CallEvent.validateCall, CallEvent.validateCall])

/-- Boundary calls of `LeadSaver.save_lead` on an already-parsed record:
for the structured template `is_valid_email` runs on a non-empty stripped
address before the insert; the insert section attempts its first insert,
and when the store answers it evaluates `has_real_email` (another
`is_valid_email` call on a non-empty address) and runs the second insert. -/
def LeadSaver_save_lead_ev (st : DBState) (email_type : EmailType)
    (d : LeadData) : List CallEvent :=
  let email0 := pyStrip d.email
  let pre :=
    if email_type = EmailType.new_lead ∧ email0 ≠ "" then [CallEvent.validateCall]
    else []
  if st.connected then
    pre ++ [CallEvent.persistInsert] ++
      (if email0 ≠ "" then [CallEvent.validateCall] else []) ++
      [CallEvent.persistInsert]
  else pre ++ [CallEvent.persistInsert]

/-- Boundary calls of `BodyBackDB.save_lead`: one extractor call (whose
internal validator calls follow), then on a successful parse the
natural-key duplicate query and, unless a duplicate was found, the calls
of `LeadSaver.save_lead`. -/
def BodyBackDB_save_lead_ev
    (parseCF_ev : String → Option LeadData × List CallEvent)
    (st : DBState) (content : EmailContent) (email_type : EmailType) :
    List CallEvent :=
  let pr :=
    if email_type = EmailType.new_lead then parse_new_lead_ev content.body
    else parseCF_ev content.body
  CallEvent.extractCall :: pr.2 ++
    match pr.1 with
    | none => []
    | some d =>
      CallEvent.persistQuery ::
        (if lead_already_exists st d email_type then []
         else LeadSaver_save_lead_ev st email_type d)

/-- Boundary calls of `listener.process_watched_email`: the idempotency
query, then the save unless the message id was already stored. -/
def process_watched_email_ev
    (parseCF_ev : String → Option LeadData × List CallEvent)
    (st : DBState) (content : EmailContent) (email_type : EmailType) :
    List CallEvent :=
  CallEvent.persistQuery ::
    (if !email_already_processed st content.id then
      BodyBackDB_save_lead_ev parseCF_ev st content email_type
    else [])

/-- Boundary calls made for one candidate message inside the
`process_message` loop: the already-processed query runs first; an
already-stored id is skipped; otherwise the message is fetched and
classified, an unrecognised subject ends processing, and a recognised one
runs `process_watched_email`. -/
def process_recent_message_ev
    (parseCF_ev : String → Option LeadData × List CallEvent)
    (st : DBState) (msg : EmailContent) : List CallEvent :=
  CallEvent.persistQuery ::
    (if email_already_processed st msg.id then []
     else
       match identify_email_type msg.subject with
       | none => []
       | some t => process_watched_email_ev parseCF_ev st msg t)

/- ----------------------------------------------------------------
Theorems.
---------------------------------------------------------------- -/

/-- C1: the contact-form extractor's validation gate accepts an extracted
record exactly when the name passes `is_valid_name` and either the phone
passes `is_valid_phone` or the location is non-empty (returning the record
unchanged), and returns absence otherwise; in particular a record with a
valid name and a location but no valid phone is accepted, and one with a
valid name but neither phone nor location is rejected. -/
theorem contact_form_gate_spec :
    (∀ d : LeadData,
      ((parse_contact_form_gate d).isSome = true ↔
        (is_valid_name d.name = true ∧
          (is_valid_phone d.phone = true ∨ d.location ≠ ""))) ∧
      (parse_contact_form_gate d = none ∨ parse_contact_form_gate d = some d)) ∧
    parse_contact_form_gate ⟨"Jane Doe", "", "", "Cape Town", ""⟩ =
      some ⟨"Jane Doe", "", "", "Cape Town", ""⟩ ∧
    parse_contact_form_gate ⟨"Jane Doe", "", "", "", ""⟩ = none := by
  refine ⟨fun d => ⟨?_, ?_⟩, by decide, by decide⟩
  · unfold parse_contact_form_gate
    cases hn : is_valid_name d.name with
    | false => simp [hn]
    | true =>
      cases hp : is_valid_phone d.phone with
      | true => simp [hn, hp]
      | false =>
        by_cases hl : d.location = "" <;> simp [hn, hp, hl]
  · unfold parse_contact_form_gate
    split
    · exact Or.inl rfl
    · split
      · exact Or.inl rfl
      · exact Or.inr rfl

/-- C8: `is_valid_name` holds exactly when the trimmed length is at least 2
and the string contains an ASCII letter; it rejects `"J"`, the empty
string, whitespace-only and pure-punctuation strings, and accepts `"Jo"`. -/
theorem is_valid_name_spec :
    (∀ s : String, is_valid_name s = true ↔
      2 ≤ (pyStripChars s.toList).length ∧ s.toList.any isAsciiAlpha = true) ∧
    is_valid_name "J" = false ∧ is_valid_name "Jo" = true ∧
    is_valid_name "" = false ∧ is_valid_name "   " = false ∧
    is_valid_name "?!." = false := by
  refine ⟨fun s => ?_, by decide, by decide, by decide, by decide, by decide⟩
  unfold is_valid_name
  by_cases h0 : s = ""
  · subst h0; decide
  · rw [if_neg h0]
    by_cases h1 : (pyStripChars s.toList).length < 2
    · rw [if_pos h1]
      constructor
      · intro h; simp at h
      · rintro ⟨h2, -⟩; exact absurd h2 (by omega)
    · rw [if_neg h1]
      have h2 : 2 ≤ (pyStripChars s.toList).length := by omega
      exact (and_iff_right h2).symm

/-- C2: `parse_new_lead` returns absence on bodies with fewer than four
non-empty trimmed lines; every successful result takes its name, phone,
email and location from the first four lines, its notes from the remaining
lines joined by newlines, and carries a valid name, phone and email; and a
body with four or more lines whose name, phone or email fails its
validator yields absence. -/
theorem parse_new_lead_spec (body : String) :
    ((newLeadLines body).length < 4 → parse_new_lead body = none) ∧
    (∀ d : LeadData, parse_new_lead body = some d →
      4 ≤ (newLeadLines body).length ∧
      d.name = (newLeadLines body).getD 0 "" ∧
      d.phone = (newLeadLines body).getD 1 "" ∧
      d.email = (newLeadLines body).getD 2 "" ∧
      d.location = (newLeadLines body).getD 3 "" ∧
      d.customer_data = String.intercalate "\n" ((newLeadLines body).drop 4) ∧
      is_valid_name d.name = true ∧ is_valid_phone d.phone = true ∧
      is_valid_email d.email = true) ∧
    (4 ≤ (newLeadLines body).length →
      (is_valid_name ((newLeadLines body).getD 0 "") = false ∨
       is_valid_phone ((newLeadLines body).getD 1 "") = false ∨
       is_valid_email ((newLeadLines body).getD 2 "") = false) →
      parse_new_lead body = none) := by
  have hnotes : (if 4 < (newLeadLines body).length then
      String.intercalate "\n" ((newLeadLines body).drop 4) else "") =
      String.intercalate "\n" ((newLeadLines body).drop 4) := by
    by_cases h : 4 < (newLeadLines body).length
    · rw [if_pos h]
    · rw [if_neg h]
      have : (newLeadLines body).drop 4 = [] :=
        List.drop_eq_nil_of_le (by omega)
      rw [this]
      rfl
  refine ⟨?_, ?_, ?_⟩
  · intro h
    unfold parse_new_lead
    rw [if_pos h]
  · intro d hd
    unfold parse_new_lead at hd
    by_cases h4 : (newLeadLines body).length < 4
    · rw [if_pos h4] at hd; exact absurd hd (by simp)
    · rw [if_neg h4] at hd
      simp only [Bool.not_eq_eq_eq_not, Bool.not_true] at hd
      split at hd
      · exact absurd hd (by simp)
      · split at hd
        · exact absurd hd (by simp)
        · split at hd
          · exact absurd hd (by simp)
          · rename_i hn hp he
            cases hd
            refine ⟨by omega, rfl, rfl, rfl, rfl, hnotes.symm ▸ rfl, ?_, ?_, ?_⟩
            · simpa using hn
            · simpa using hp
            · simpa using he
  · intro h4 hbad
    unfold parse_new_lead
    rw [if_neg (by omega)]
    dsimp only
    rcases hbad with hb | hb | hb
    · rw [hb]; rfl
    · rw [hb]
      cases hn : is_valid_name ((newLeadLines body).getD 0 "") <;> rfl
    · rw [hb]
      cases hn : is_valid_name ((newLeadLines body).getD 0 "") <;>
        cases hp : is_valid_phone ((newLeadLines body).getD 1 "") <;> rfl

/-- Witness for C2: a two-line body is rejected; a four-line body with an
invalid phone is rejected; the five-line example body is accepted with at
least four lines. -/
theorem parse_new_lead_spec_witness :
    parse_new_lead "Jane Doe\n0821234567" = none ∧
    parse_new_lead "John Smith\nX\njane@example.com\nCape Town" = none ∧
    4 ≤ (newLeadLines
      "Jane Doe\n0821234567\njane@example.com\nCape Town\nWants deep tissue").length := by
  refine ⟨(parse_new_lead_spec _).1 (by decide),
    (parse_new_lead_spec _).2.2 (by decide) (by decide),
    ((parse_new_lead_spec _).2.1
      ⟨"Jane Doe", "0821234567", "jane@example.com", "Cape Town", "Wants deep tissue"⟩
      (by decide)).1⟩

/-- With the store unreachable, the natural-key query's error is caught and
`lead_already_exists` answers `false`. -/
theorem lead_already_exists_disconnected (st : DBState) (d : LeadData)
    (t : EmailType) (h : st.connected = false) :
    lead_already_exists st d t = false := by
  unfold lead_already_exists lead_already_exists_q
  rw [if_neg (by simp [h])]

/-- With the store unreachable, the idempotency query's error is caught and
`email_already_processed` answers `false`. -/
theorem email_already_processed_disconnected (st : DBState) (email_id : String)
    (h : st.connected = false) :
    email_already_processed st email_id = false := by
  unfold email_already_processed email_already_processed_q
  rw [if_neg (by simp [h])]

/-- With the store unreachable, `BodyBackDB.save_lead` catches the insert
error and returns absence with the store untouched. -/
theorem save_lead_disconnected (parseCF : String → Option LeadData)
    (uuid : String) (st : DBState) (content : EmailContent) (t : EmailType)
    (h : st.connected = false) :
    BodyBackDB_save_lead parseCF uuid st content t = (none, st) := by
  unfold BodyBackDB_save_lead
  dsimp only
  split
  · rfl
  · rw [lead_already_exists_disconnected st _ t h]
    rw [if_neg (by simp)]
    unfold LeadSaver_save_lead LeadSaver_insert_q
    dsimp only
    rw [if_neg (by simp [h])]

/-- With the store unreachable, processing leaves the state unchanged. -/
theorem process_watched_email_disconnected (parseCF : String → Option LeadData)
    (uuid : String) (st : DBState) (content : EmailContent) (t : EmailType)
    (h : st.connected = false) :
    process_watched_email parseCF uuid st content t = st := by
  unfold process_watched_email
  rw [save_lead_disconnected parseCF uuid st content t h]
  split <;> rfl

/-- Processing never changes the connectivity flag of the store. -/
theorem process_watched_email_connected (parseCF : String → Option LeadData)
    (uuid : String) (st : DBState) (content : EmailContent) (t : EmailType) :
    (process_watched_email parseCF uuid st content t).connected = st.connected := by
  cases hc : st.connected with
  | false => rw [process_watched_email_disconnected parseCF uuid st content t hc, hc]
  | true =>
    unfold process_watched_email
    split
    · unfold BodyBackDB_save_lead
      dsimp only
      split
      · exact hc
      · split
        · exact hc
        · unfold LeadSaver_save_lead LeadSaver_insert_q
          dsimp only
          rw [if_pos hc]
          exact hc
    · exact hc

/-- C5 (corrected): when the persistence boundary raises a connectivity
error during duplicate checking or insertion, the exception does NOT
propagate: the `try/except` blocks of the source swallow it, so
`email_already_processed` answers `false`, `BodyBackDB.save_lead` returns
absence with the store untouched, and processing completes normally with
the otherwise-valid lead silently dropped. -/
theorem persistence_error_swallowed (parseCF : String → Option LeadData)
    (uuid : String) (st : DBState) (content : EmailContent) (t : EmailType)
    (h : st.connected = false) :
    email_already_processed_q st content.id = Except.error DBError.connectionError ∧
    email_already_processed st content.id = false ∧
    BodyBackDB_save_lead parseCF uuid st content t = (none, st) ∧
    process_watched_email parseCF uuid st content t = st := by
  refine ⟨?_, email_already_processed_disconnected st content.id h,
    save_lead_disconnected parseCF uuid st content t h,
    process_watched_email_disconnected parseCF uuid st content t h⟩
  unfold email_already_processed_q
  rw [if_neg (by simp [h])]

/-- Counterexample to C5 as stated: on a disconnected store and an
otherwise-valid structured lead, the raw queries and the raw insert all
raise, yet the pipeline completes normally — `save_lead` returns absence
with no record persisted instead of surfacing an exception. -/
theorem persistence_error_swallowed_counterexample :
    email_already_processed_q ⟨false, [], [], 1⟩ "msg1" =
      Except.error DBError.connectionError ∧
    email_already_processed ⟨false, [], [], 1⟩ "msg1" = false ∧
    LeadSaver_insert_q ⟨false, [], [], 1⟩
      ⟨"msg1", "NEW M LEAD", "from@x.co", "2024-01-01",
        "Jane Doe\n0821234567\njane@example.com\nCape Town", false⟩
      EmailType.new_lead
      ⟨"Jane Doe", "0821234567", "jane@example.com", "Cape Town", ""⟩
      "jane@example.com" "Jane" "Doe" =
      Except.error DBError.connectionError ∧
    BodyBackDB_save_lead (fun _ => none) "u" ⟨false, [], [], 1⟩
      ⟨"msg1", "NEW M LEAD", "from@x.co", "2024-01-01",
        "Jane Doe\n0821234567\njane@example.com\nCape Town", false⟩
      EmailType.new_lead =
      (none, ⟨false, [], [], 1⟩) :=
  ⟨rfl, rfl, rfl, rfl⟩

/-- Witness for C5: the corrected statement instantiated on a concrete
disconnected store. -/
theorem persistence_error_swallowed_witness :
    process_watched_email (fun _ => none) "u" ⟨false, [], [], 1⟩
      ⟨"msg1", "NEW M LEAD", "from@x.co", "2024-01-01",
        "Jane Doe\n0821234567\njane@example.com\nCape Town", false⟩
      EmailType.new_lead = ⟨false, [], [], 1⟩ :=
  (persistence_error_swallowed (fun _ => none) "u" ⟨false, [], [], 1⟩
    ⟨"msg1", "NEW M LEAD", "from@x.co", "2024-01-01",
      "Jane Doe\n0821234567\njane@example.com\nCape Town", false⟩
    EmailType.new_lead rfl).2.2.2

/-- C3: processing is idempotent in the message identifier.  If the store
held no record for the message id and a first processing stored exactly
one, then a second processing of the same message finds the identifier via
`email_already_processed`, performs no insert (the state is unchanged),
and exactly one record for that identifier remains — for any extractor
outcome and any placeholder tokens. -/
theorem processing_idempotent (parseCF : String → Option LeadData)
    (uuid1 uuid2 : String) (st0 : DBState) (content : EmailContent) (t : EmailType)
    (h0 : countGmail st0 content.id = 0)
    (h1 : countGmail (process_watched_email parseCF uuid1 st0 content t)
      content.id = 1) :
    email_already_processed (process_watched_email parseCF uuid1 st0 content t)
      content.id = true ∧
    process_watched_email parseCF uuid2
      (process_watched_email parseCF uuid1 st0 content t) content t =
      process_watched_email parseCF uuid1 st0 content t ∧
    countGmail (process_watched_email parseCF uuid2
      (process_watched_email parseCF uuid1 st0 content t) content t)
      content.id = 1 := by
  set st1 := process_watched_email parseCF uuid1 st0 content t with hst1
  have hc0 : st0.connected = true := by
    by_contra hc
    have hcf : st0.connected = false := by
      cases hcc : st0.connected
      · rfl
      · exact absurd hcc hc
    rw [hst1, process_watched_email_disconnected parseCF uuid1 st0 content t hcf] at h1
    omega
  have hc1 : st1.connected = true := by
    rw [hst1, process_watched_email_connected]
    exact hc0
  have hex : email_already_processed st1 content.id = true := by
    unfold email_already_processed email_already_processed_q
    rw [if_pos hc1]
    have hpos : 0 < (st1.customers.filter
        fun c => c.profile.gmail_id == content.id).length := by
      unfold countGmail at h1
      omega
    obtain ⟨c, hcmem⟩ := List.exists_mem_of_length_pos hpos
    have hcp := List.mem_filter.mp hcmem
    exact List.any_eq_true.mpr ⟨c, hcp.1, hcp.2⟩
  have hskip : process_watched_email parseCF uuid2 st1 content t = st1 := by
    unfold process_watched_email
    rw [hex]
    rfl
  refine ⟨hex, hskip, ?_⟩
  rw [hskip]
  exact h1

/-- Witness for C3: a concrete first processing of a structured lead on an
empty connected store, after which the message id is found. -/
theorem processing_idempotent_witness :
    email_already_processed
      (process_watched_email (fun _ => none) "u1" ⟨true, [], [], 1⟩
        ⟨"msg1", "NEW M LEAD", "from@x.co", "2024-01-01",
          "Jane Doe\n0821234567\njane@example.com\nCape Town", false⟩
        EmailType.new_lead) "msg1" = true :=
  (processing_idempotent (fun _ => none) "u1" "u2" ⟨true, [], [], 1⟩
    ⟨"msg1", "NEW M LEAD", "from@x.co", "2024-01-01",
      "Jane Doe\n0821234567\njane@example.com\nCape Town", false⟩
    EmailType.new_lead (by decide) (by decide)).1

/-- C7: the natural-key duplicate check compares the (stripped) phone
number against prior user rows for the contact-form templates and the
(stripped) email address for the structured template, firing only when the
key is non-empty, the store answers, and a matching prior row exists; and
whenever it fires, `BodyBackDB.save_lead` skips the lead and inserts
nothing, whatever the arrival order that produced the prior rows. -/
theorem lead_dedup_spec (st : DBState) (d : LeadData) (t : EmailType) :
    (lead_already_exists st d t = true ↔
      st.connected = true ∧
      (((t = EmailType.home_page ∨ t = EmailType.packages_page) ∧
          pyStrip d.phone ≠ "" ∧
          (∃ u ∈ st.users, u.phone_number = pyStrip d.phone)) ∨
        (t = EmailType.new_lead ∧ pyStrip d.email ≠ "" ∧
          (∃ u ∈ st.users, u.email = pyStrip d.email)))) ∧
    (∀ (parseCF : String → Option LeadData) (uuid : String)
        (content : EmailContent),
      (if t = EmailType.new_lead then parse_new_lead content.body
        else parseCF content.body) = some d →
      lead_already_exists st d t = true →
      BodyBackDB_save_lead parseCF uuid st content t = (none, st)) := by
  constructor
  · unfold lead_already_exists lead_already_exists_q
    by_cases hc : st.connected = true
    · rw [if_pos hc]
      dsimp only
      cases t with
      | new_lead =>
        rw [if_neg (by simp), if_pos rfl]
        by_cases hp : pyStrip d.email = ""
        · rw [if_neg (by simp [hp])]
          simp [hp, hc]
        · rw [if_pos hp]
          simp [List.any_eq_true, beq_iff_eq, hc, hp]
      | home_page =>
        rw [if_pos (Or.inl rfl)]
        by_cases hp : pyStrip d.phone = ""
        · rw [if_neg (by simp [hp])]
          simp [hp, hc]
        · rw [if_pos hp]
          simp [List.any_eq_true, beq_iff_eq, hc, hp]
      | packages_page =>
        rw [if_pos (Or.inr rfl)]
        by_cases hp : pyStrip d.phone = ""
        · rw [if_neg (by simp [hp])]
          simp [hp, hc]
        · rw [if_pos hp]
          simp [List.any_eq_true, beq_iff_eq, hc, hp]
    · rw [if_neg hc]
      simp [hc]
  · intro parseCF uuid content hparse hdup
    unfold BodyBackDB_save_lead
    dsimp only
    rw [hparse]
    dsimp only
    rw [hdup]
    rfl

/-- Witness for C7: a second contact-form message with an already-stored
phone number is skipped with no insert. -/
theorem lead_dedup_spec_witness :
    BodyBackDB_save_lead
      (fun _ => some ⟨"Jane Doe", "0821234567", "", "Cape Town", ""⟩) "u"
      ⟨true, [⟨1, "contact_u0@bodyback-lead.local", "lead_no_password", "Jane",
        "Doe", "0821234567", "Cape Town", ["lead"], true⟩], [], 2⟩
      ⟨"msg2", "SA Home page message from \"BodyBack\"", "from@x.co",
        "2024-01-02", "irrelevant", false⟩
      EmailType.home_page =
      (none, ⟨true, [⟨1, "contact_u0@bodyback-lead.local", "lead_no_password",
        "Jane", "Doe", "0821234567", "Cape Town", ["lead"], true⟩], [], 2⟩) :=
  (lead_dedup_spec
    ⟨true, [⟨1, "contact_u0@bodyback-lead.local", "lead_no_password", "Jane",
      "Doe", "0821234567", "Cape Town", ["lead"], true⟩], [], 2⟩
    ⟨"Jane Doe", "0821234567", "", "Cape Town", ""⟩
    EmailType.home_page).2
    (fun _ => some ⟨"Jane Doe", "0821234567", "", "Cape Town", ""⟩) "u"
    ⟨"msg2", "SA Home page message from \"BodyBack\"", "from@x.co",
      "2024-01-02", "irrelevant", false⟩
    (by decide) (by decide)

/-- C4 (corrected): a message whose subject the classifier does not
recognise triggers no extractor call, no validator call and no insert —
but not zero persistence calls: the processing loop always runs the
read-only `email_already_processed` query first, so its trace is exactly
that one query. -/
theorem process_unmatched_message_events
    (parseCF_ev : String → Option LeadData × List CallEvent)
    (st : DBState) (msg : EmailContent)
    (h : identify_email_type msg.subject = none) :
    process_recent_message_ev parseCF_ev st msg = [CallEvent.persistQuery] ∧
    CallEvent.extractCall ∉ process_recent_message_ev parseCF_ev st msg ∧
    CallEvent.validateCall ∉ process_recent_message_ev parseCF_ev st msg ∧
    CallEvent.persistInsert ∉ process_recent_message_ev parseCF_ev st msg := by
  have he : process_recent_message_ev parseCF_ev st msg = [CallEvent.persistQuery] := by
    unfold process_recent_message_ev
    rw [h]
    split <;> rfl
  rw [he]
  exact ⟨rfl, by simp, by simp, by simp⟩

/-- Counterexample to C4 as stated: a message with the unrecognised subject
`"Hello"` still produces a persistence-boundary call — the duplicate
pre-check query runs before classification — so the number of persistence
calls is not zero. -/
theorem process_unmatched_message_events_counterexample :
    identify_email_type "Hello" = none ∧
    CallEvent.persistQuery ∈
      process_recent_message_ev (fun _ => (none, [])) ⟨true, [], [], 1⟩
        ⟨"m1", "Hello", "from@x.co", "2024-01-03", "some body", false⟩ := by
  refine ⟨by decide, ?_⟩
  show CallEvent.persistQuery ∈
    process_recent_message_ev (fun _ => (none, [])) ⟨true, [], [], 1⟩
      ⟨"m1", "Hello", "from@x.co", "2024-01-03", "some body", false⟩
  decide

/-- Lowercasing never turns a character into whitespace or out of it. -/
theorem isPySpace_asciiLower (c : Char) : isPySpace (asciiLower c) = isPySpace c := by
  unfold asciiLower
  split
  · rename_i h
    obtain ⟨h1, h2⟩ := h
    have e2 : isPySpace c = false := by
      unfold isPySpace
      simp only [Bool.or_eq_false_iff, beq_eq_false_iff_ne, ne_eq]
      refine ⟨⟨⟨⟨⟨?_, ?_⟩, ?_⟩, ?_⟩, ?_⟩, ?_⟩ <;>
        · intro e
          subst e
          exact absurd h1 (by decide)
    rw [e2]
    have hb1 : 97 ≤ c.toNat + 32 := by omega
    have hb2 : c.toNat + 32 ≤ 122 := by omega
    generalize hg : c.toNat + 32 = m
    rw [hg] at hb1 hb2
    interval_cases m <;> decide
  · rfl

/-- A non-matching head character can be dropped from the haystack. -/
theorem containsSub_cons_ne (a c : Char) (n t : List Char) (hne : a ≠ c) :
    listContainsSub (a :: n) (c :: t) = listContainsSub (a :: n) t := by
  have hstep : listContainsSub (a :: n) (c :: t) =
      (listStartsWith (a :: n) (c :: t) || listContainsSub (a :: n) t) := rfl
  have hhead : listStartsWith (a :: n) (c :: t) = false := by
    have : listStartsWith (a :: n) (c :: t) = (a == c && listStartsWith n t) := rfl
    rw [this]
    simp [hne]
  rw [hstep, hhead]
  simp

/-- A haystack prefix of pure whitespace is invisible to containment of a
needle that starts with a non-whitespace character. -/
theorem containsSub_ws_skip (a : Char) (n : List Char)
    (ha : isPySpace a = false) :
    ∀ (pre t : List Char), (∀ c ∈ pre, isPySpace c = true) →
      listContainsSub (a :: n) (pre ++ t) = listContainsSub (a :: n) t := by
  intro pre
  induction pre with
  | nil => intro t _; rfl
  | cons c cs ih =>
    intro t hws
    have hc : isPySpace c = true := hws c (List.mem_cons_self c cs)
    have hne : a ≠ c := by
      intro e
      subst e
      rw [ha] at hc
      cases hc
    rw [List.cons_append, containsSub_cons_ne a c n (cs ++ t) hne,
      ih t (fun x hx => hws x (List.mem_cons_of_mem c hx))]

/-- Leading whitespace of the haystack can be stripped (after lowercasing)
without changing containment of a non-whitespace-headed needle. -/
theorem containsSub_lower_dropWhile (a : Char) (n cs : List Char)
    (ha : isPySpace a = false) :
    listContainsSub (a :: n) (lowerList (cs.dropWhile isPySpace)) =
    listContainsSub (a :: n) (lowerList cs) := by
  conv_rhs => rw [← List.takeWhile_append_dropWhile (p := isPySpace) (l := cs)]
  unfold lowerList
  rw [List.map_append]
  rw [containsSub_ws_skip a n ha _ _ ?hws]
  case hws =>
    intro x hx
    obtain ⟨y, hy, rfl⟩ := List.mem_map.mp hx
    rw [isPySpace_asciiLower]
    exact List.mem_takeWhile_imp hy

/-- The four lowercased characters of a forward prefix can be dropped from
the haystack for a needle whose head is none of them. -/
theorem containsSub_fwd_chars (a : Char) (n rest : List Char)
    (h1 : a ≠ 'f') (h2 : a ≠ 'w') (h3 : a ≠ 'd') (h4 : a ≠ ':') :
    listContainsSub (a :: n) ('f' :: 'w' :: 'd' :: ':' :: rest) =
    listContainsSub (a :: n) rest := by
  rw [containsSub_cons_ne _ _ _ _ h1, containsSub_cons_ne _ _ _ _ h2,
    containsSub_cons_ne _ _ _ _ h3, containsSub_cons_ne _ _ _ _ h4]

/-- Prepending the five characters of `"Fwd: "` to any subject leaves the
lowercased forward-stripped haystack equivalent for containment of any
needle headed by a non-whitespace character other than `f`, `w`, `d`, `:`. -/
theorem containsSub_stripFwd_fwd (a : Char) (n cs : List Char)
    (ha : isPySpace a = false)
    (h1 : a ≠ 'f') (h2 : a ≠ 'w') (h3 : a ≠ 'd') (h4 : a ≠ ':') :
    listContainsSub (a :: n)
      (lowerList (stripFwd ('F' :: 'w' :: 'd' :: ':' :: ' ' :: cs))) =
    listContainsSub (a :: n) (lowerList (stripFwd cs)) := by
  have hL : stripFwd ('F' :: 'w' :: 'd' :: ':' :: ' ' :: cs) =
      cs.dropWhile isPySpace := by
    show (if asciiLower 'F' = 'f' ∧ asciiLower 'w' = 'w' ∧ asciiLower 'd' = 'd' ∧
        (':' : Char) = ':' then (' ' :: cs).dropWhile isPySpace
      else 'F' :: 'w' :: 'd' :: ':' :: ' ' :: cs) = cs.dropWhile isPySpace
    rw [if_pos (by decide), List.dropWhile_cons, if_pos (by decide)]
  rw [hL]
  match cs with
  | [] => rfl
  | [c0] => exact containsSub_lower_dropWhile a n [c0] ha
  | [c0, c1] => exact containsSub_lower_dropWhile a n [c0, c1] ha
  | [c0, c1, c2] => exact containsSub_lower_dropWhile a n [c0, c1, c2] ha
  | c0 :: c1 :: c2 :: c3 :: rest =>
    by_cases hfwd : asciiLower c0 = 'f' ∧ asciiLower c1 = 'w' ∧
        asciiLower c2 = 'd' ∧ c3 = ':'
    · have hc0 : isPySpace c0 = false := by
        rw [← isPySpace_asciiLower, hfwd.1]
        decide
      have hR : stripFwd (c0 :: c1 :: c2 :: c3 :: rest) =
          rest.dropWhile isPySpace := by
        show (if asciiLower c0 = 'f' ∧ asciiLower c1 = 'w' ∧ asciiLower c2 = 'd' ∧
            c3 = ':' then rest.dropWhile isPySpace
          else c0 :: c1 :: c2 :: c3 :: rest) = rest.dropWhile isPySpace
        rw [if_pos hfwd]
      rw [hR]
      rw [List.dropWhile_cons, hc0]
      simp only [Bool.false_eq_true, if_false]
      have hlow : lowerList (c0 :: c1 :: c2 :: c3 :: rest) =
          'f' :: 'w' :: 'd' :: ':' :: lowerList rest := by
        unfold lowerList
        simp only [List.map_cons]
        rw [hfwd.1, hfwd.2.1, hfwd.2.2.1, hfwd.2.2.2]
        rfl
      rw [hlow, containsSub_fwd_chars a n _ h1 h2 h3 h4]
      exact (containsSub_lower_dropWhile a n rest ha).symm
    · have hR : stripFwd (c0 :: c1 :: c2 :: c3 :: rest) =
          c0 :: c1 :: c2 :: c3 :: rest := by
        show (if asciiLower c0 = 'f' ∧ asciiLower c1 = 'w' ∧ asciiLower c2 = 'd' ∧
            c3 = ':' then rest.dropWhile isPySpace
          else c0 :: c1 :: c2 :: c3 :: rest) = c0 :: c1 :: c2 :: c3 :: rest
        rw [if_neg hfwd]
      rw [hR]
      exact containsSub_lower_dropWhile a n (c0 :: c1 :: c2 :: c3 :: rest) ha

/-- `find?` only depends on the predicate's values on the list. -/
theorem find?_congr_on {α : Type} (p q : α → Bool) :
    ∀ l : List α, (∀ x ∈ l, p x = q x) → l.find? p = l.find? q := by
  intro l
  induction l with
  | nil => intro _; rfl
  | cons a t ih =>
    intro h
    rw [List.find?_cons, List.find?_cons, h a (List.mem_cons_self a t)]
    cases q a
    · exact ih (fun x hx => h x (List.mem_cons_of_mem a hx))
    · rfl

/-- C6: the classifier strips a case-insensitive leading `Fwd:` token, then
tests each known template's fragment for case-insensitive substring
containment in the fixed `WATCHED_SUBJECTS` priority order, returning the
first match and `None` when no fragment matches; it is a total function,
hence deterministic; and prefixing any subject with `"Fwd: "` never
changes its classification. -/
theorem classifier_spec :
    (∀ s : String, identify_email_type ("Fwd: " ++ s) = identify_email_type s) ∧
    (∀ s : String, identify_email_type s = none ↔
      ∀ p ∈ WATCHED_SUBJECTS,
        listContainsSub (lowerList p.2.toList) (lowerList (stripFwd s.toList)) =
          false) ∧
    (∀ s : String, s ≠ "" →
      identify_email_type s =
        (WATCHED_SUBJECTS.find? fun p =>
          listContainsSub (lowerList p.2.toList)
            (lowerList (stripFwd s.toList))).map Prod.fst) := by
  have hiff : ∀ s : String, s ≠ "" →
      identify_email_type s =
        (WATCHED_SUBJECTS.find? fun p =>
          listContainsSub (lowerList p.2.toList)
            (lowerList (stripFwd s.toList))).map Prod.fst := by
    intro s hs
    unfold identify_email_type
    rw [if_neg hs]
  refine ⟨?_, ?_, hiff⟩
  · intro s
    by_cases hs : s = ""
    · subst hs
      decide
    · have hsf : ("Fwd: " ++ s) ≠ "" := by
        intro e
        have : ("Fwd: " ++ s).data = [] := by rw [e]
        rw [String.data_append] at this
        exact absurd this (by simp)
      rw [hiff _ hsf, hiff _ hs]
      have hdata : ("Fwd: " ++ s).toList =
          'F' :: 'w' :: 'd' :: ':' :: ' ' :: s.toList := by
        show ("Fwd: " ++ s).data = 'F' :: 'w' :: 'd' :: ':' :: ' ' :: s.data
        rw [String.data_append]
        rfl
      rw [hdata]
      congr 1
      apply find?_congr_on
      intro p hp
      fin_cases hp
      · show listContainsSub (lowerList "NEW M LEAD".toList) _ =
          listContainsSub (lowerList "NEW M LEAD".toList) _
        have hfrag : lowerList "NEW M LEAD".toList =
            'n' :: "ew m lead".toList := by decide
        rw [hfrag]
        exact containsSub_stripFwd_fwd 'n' _ s.toList (by decide) (by decide)
          (by decide) (by decide) (by decide)
      · show listContainsSub
          (lowerList "SA Home page message from \"BodyBack\"".toList) _ =
          listContainsSub
            (lowerList "SA Home page message from \"BodyBack\"".toList) _
        have hfrag : lowerList "SA Home page message from \"BodyBack\"".toList =
            's' :: "a home page message from \"bodyback\"".toList := by decide
        rw [hfrag]
        exact containsSub_stripFwd_fwd 's' _ s.toList (by decide) (by decide)
          (by decide) (by decide) (by decide)
      · show listContainsSub
          (lowerList "SA Packages page message from \"BodyBack\"".toList) _ =
          listContainsSub
            (lowerList "SA Packages page message from \"BodyBack\"".toList) _
        have hfrag : lowerList "SA Packages page message from \"BodyBack\"".toList =
            's' :: "a packages page message from \"bodyback\"".toList := by decide
        rw [hfrag]
        exact containsSub_stripFwd_fwd 's' _ s.toList (by decide) (by decide)
          (by decide) (by decide) (by decide)
  · intro s
    by_cases hs : s = ""
    · subst hs
      exact iff_of_true rfl (by decide)
    · rw [hiff s hs]
      rw [Option.map_eq_none']
      rw [List.find?_eq_none]
      simp only [Bool.not_eq_true]

/-- Witness for C6: the classifier's forward-prefix invariance and its
first-match characterization at concrete subjects. -/
theorem classifier_spec_witness :
    identify_email_type "Fwd: NEW M LEAD inquiry" =
      identify_email_type "NEW M LEAD inquiry" ∧
    identify_email_type "an uninteresting subject" =
      (WATCHED_SUBJECTS.find? fun p =>
        listContainsSub (lowerList p.2.toList)
          (lowerList (stripFwd "an uninteresting subject".toList))).map Prod.fst :=
  ⟨classifier_spec.1 "NEW M LEAD inquiry",
    classifier_spec.2.2 "an uninteresting subject" (by decide)⟩

/-- Witness for C4: the corrected statement instantiated on the concrete
`"Hello"` message. -/
theorem process_unmatched_message_events_witness :
    process_recent_message_ev (fun _ => (none, [])) ⟨true, [], [], 1⟩
      ⟨"m2", "Hello there", "from@x.co", "2024-01-03", "some body", false⟩ =
      [CallEvent.persistQuery] :=
  (process_unmatched_message_events (fun _ => (none, [])) ⟨true, [], [], 1⟩
    ⟨"m2", "Hello there", "from@x.co", "2024-01-03", "some body", false⟩
    (by decide)).1

/-- One-step equation for `wordsBy` on a non-empty list. -/
theorem wordsBy_cons (c : Char) (t : List Char) :
    wordsBy (c :: t) = if isPySpace c then wordsBy t
      else (c :: t.takeWhile (fun x => !isPySpace x)) ::
        wordsBy (t.dropWhile (fun x => !isPySpace x)) := by
  rw [wordsBy]

/-- One-step equation for `collapseWs` on a non-empty list. -/
theorem collapseWs_cons (c : Char) (t : List Char) :
    collapseWs (c :: t) =
      if isPySpace c then ' ' :: collapseWs (t.dropWhile isPySpace)
      else c :: collapseWs t := by
  rw [collapseWs]

/-- Dropping trailing whitespace leaves no trailing whitespace. -/
theorem lastNotWs_dropTrailingWs : ∀ l : List Char,
    lastNotWs (dropTrailingWs l) = true
  | [] => rfl
  | c :: t => by
    have ih := lastNotWs_dropTrailingWs t
    show lastNotWs (match dropTrailingWs t with
      | [] => if isPySpace c then [] else [c]
      | r => c :: r) = true
    cases hr : dropTrailingWs t with
    | nil =>
      by_cases hc : isPySpace c
      · rw [if_pos hc]
        rfl
      · rw [if_neg hc]
        show (!isPySpace c) = true
        simpa using hc
    | cons x xs =>
      rw [hr] at ih
      show lastNotWs (c :: x :: xs) = true
      exact ih

/-- Dropping trailing whitespace keeps a non-whitespace head. -/
theorem headNotWs_dropTrailingWs : ∀ l : List Char,
    headNotWs l = true → headNotWs (dropTrailingWs l) = true
  | [] => fun _ => rfl
  | c :: t => by
    intro h
    show headNotWs (match dropTrailingWs t with
      | [] => if isPySpace c then [] else [c]
      | r => c :: r) = true
    have hc : isPySpace c = false := by simpa [headNotWs] using h
    cases dropTrailingWs t with
    | nil => simp [hc, headNotWs]
    | cons x xs => simpa [headNotWs] using hc

/-- Dropping leading whitespace leaves no leading whitespace. -/
theorem headNotWs_dropWhile : ∀ l : List Char,
    headNotWs (l.dropWhile isPySpace) = true
  | [] => rfl
  | c :: t => by
    rw [List.dropWhile_cons]
    by_cases hc : isPySpace c
    · rw [if_pos (by simp [hc])]
      exact headNotWs_dropWhile t
    · rw [if_neg (by simpa using hc)]
      simpa [headNotWs] using hc

/-- A stripped string has a non-whitespace head. -/
theorem headNotWs_pyStripChars (l : List Char) :
    headNotWs (pyStripChars l) = true :=
  headNotWs_dropTrailingWs _ (headNotWs_dropWhile l)

/-- A stripped string has a non-whitespace last character. -/
theorem lastNotWs_pyStripChars (l : List Char) :
    lastNotWs (pyStripChars l) = true :=
  lastNotWs_dropTrailingWs _

/-- Stripping fixes a list with no trailing whitespace. -/
theorem dropTrailingWs_of_lastNotWs : ∀ l : List Char,
    lastNotWs l = true → dropTrailingWs l = l
  | [], _ => rfl
  | [c], h => by
    have hc : isPySpace c = false := by simpa [lastNotWs] using h
    simp [dropTrailingWs, hc]
  | c :: x :: xs, h => by
    have ht : lastNotWs (x :: xs) = true := h
    have hrec := dropTrailingWs_of_lastNotWs (x :: xs) ht
    show (match dropTrailingWs (x :: xs) with
      | [] => if isPySpace c then [] else [c]
      | r => c :: r) = c :: x :: xs
    rw [hrec]

/-- Stripping fixes a list with no edge whitespace. -/
theorem pyStripChars_of_normal (l : List Char) (hh : headNotWs l = true)
    (hl : lastNotWs l = true) : pyStripChars l = l := by
  unfold pyStripChars
  have hd : l.dropWhile isPySpace = l := by
    cases l with
    | nil => rfl
    | cons c t =>
      rw [List.dropWhile_cons, if_neg (by simpa [headNotWs] using hh)]
  rw [hd]
  exact dropTrailingWs_of_lastNotWs l hl

/-- `wordsBy` ignores leading whitespace. -/
theorem wordsBy_dropWhile : ∀ l : List Char,
    wordsBy (l.dropWhile isPySpace) = wordsBy l
  | [] => rfl
  | c :: t => by
    rw [List.dropWhile_cons]
    by_cases hc : isPySpace c
    · rw [if_pos (by simp [hc]), wordsBy_cons, if_pos hc]
      exact wordsBy_dropWhile t
    · rw [if_neg (by simpa using hc)]

/-- Every word produced by `wordsBy` is non-empty and whitespace-free. -/
theorem wordsBy_props : ∀ l : List Char, ∀ w ∈ wordsBy l,
    w ≠ [] ∧ ∀ c ∈ w, isPySpace c = false
  | [] => by simp [wordsBy]
  | c :: t => by
    intro w hw
    rw [wordsBy_cons] at hw
    by_cases hc : isPySpace c
    · rw [if_pos hc] at hw
      exact wordsBy_props t w hw
    · rw [if_neg hc] at hw
      rcases List.mem_cons.mp hw with hw | hw
      · subst hw
        refine ⟨by simp, ?_⟩
        intro x hx
        rcases List.mem_cons.mp hx with hx | hx
        · subst hx
          simpa using hc
        · have := List.mem_takeWhile_imp hx
          simpa using this
      · exact wordsBy_props (t.dropWhile (fun x => !isPySpace x)) w hw
termination_by l => l.length
decreasing_by
  · simp
  · simpa using Nat.lt_succ_of_le (List.dropWhile_sublist _).length_le

/-- Peeling the head character off the first word of a join. -/
theorem joinSp_cons_head (c : Char) (w : List Char) (tail : List (List Char)) :
    joinSp ((c :: w) :: tail) = c :: joinSp (w :: tail) := by
  cases tail with
  | nil => rfl
  | cons x xs => rfl

/-- A join starting with a non-empty word is non-empty. -/
theorem joinSp_ne_nil (w : List Char) (tail : List (List Char)) (hw : w ≠ []) :
    joinSp (w :: tail) ≠ [] := by
  cases tail with
  | nil => simpa using hw
  | cons x xs =>
    show w ++ ' ' :: joinSp (x :: xs) ≠ []
    simp

/-- `takeWhile` passes over a prefix on which the predicate holds. -/
theorem takeWhile_append_of_all {p : Char → Bool} : ∀ (a b : List Char),
    (∀ x ∈ a, p x = true) → (a ++ b).takeWhile p = a ++ b.takeWhile p
  | [], _, _ => rfl
  | c :: a', b, h => by
    rw [List.cons_append, List.takeWhile_cons,
      if_pos (h c (List.mem_cons_self c a')),
      takeWhile_append_of_all a' b (fun x hx => h x (List.mem_cons_of_mem c hx)),
      List.cons_append]

/-- `dropWhile` drops a prefix on which the predicate holds. -/
theorem dropWhile_append_of_all {p : Char → Bool} : ∀ (a b : List Char),
    (∀ x ∈ a, p x = true) → (a ++ b).dropWhile p = b.dropWhile p
  | [], _, _ => rfl
  | c :: a', b, h => by
    rw [List.cons_append, List.dropWhile_cons,
      if_pos (h c (List.mem_cons_self c a'))]
    exact dropWhile_append_of_all a' b (fun x hx => h x (List.mem_cons_of_mem c hx))

/-- `takeWhile` keeps a list the predicate accepts everywhere. -/
theorem takeWhile_eq_self_of_all {p : Char → Bool} : ∀ l : List Char,
    (∀ x ∈ l, p x = true) → l.takeWhile p = l
  | [], _ => rfl
  | c :: t, h => by
    rw [List.takeWhile_cons, if_pos (h c (List.mem_cons_self c t)),
      takeWhile_eq_self_of_all t (fun x hx => h x (List.mem_cons_of_mem c hx))]

/-- `dropWhile` empties a list the predicate accepts everywhere. -/
theorem dropWhile_eq_nil_of_all {p : Char → Bool} : ∀ l : List Char,
    (∀ x ∈ l, p x = true) → l.dropWhile p = []
  | [], _ => rfl
  | c :: t, h => by
    rw [List.dropWhile_cons, if_pos (h c (List.mem_cons_self c t))]
    exact dropWhile_eq_nil_of_all t (fun x hx => h x (List.mem_cons_of_mem c hx))

/-- Base equation for `wordsBy`. -/
theorem wordsBy_nil : wordsBy [] = [] := by rw [wordsBy]

/-- Base equation for `collapseWs`. -/
theorem collapseWs_nil : collapseWs [] = [] := by rw [collapseWs]

/-- Splitting a space-join of non-empty whitespace-free words recovers
exactly those words. -/
theorem wordsBy_joinSp : ∀ W : List (List Char),
    (∀ w ∈ W, w ≠ [] ∧ ∀ c ∈ w, isPySpace c = false) → wordsBy (joinSp W) = W
  | [], _ => wordsBy_nil
  | w :: tail, h => by
    obtain ⟨hw, hcs⟩ := h w (List.mem_cons_self w tail)
    obtain ⟨c, w', rfl⟩ : ∃ c w', w = c :: w' := by
      cases w with
      | nil => exact absurd rfl hw
      | cons c w' => exact ⟨c, w', rfl⟩
    have hc : isPySpace c = false := hcs c (List.mem_cons_self c w')
    have hw' : ∀ x ∈ w', isPySpace x = false :=
      fun x hx => hcs x (List.mem_cons_of_mem c hx)
    cases tail with
    | nil =>
      show wordsBy (c :: w') = [c :: w']
      rw [wordsBy_cons, if_neg (show ¬(isPySpace c = true) by simp [hc]),
        takeWhile_eq_self_of_all w' (fun x hx => by simp [hw' x hx]),
        dropWhile_eq_nil_of_all w' (fun x hx => by simp [hw' x hx]),
        wordsBy_nil]
    | cons x xs =>
      show wordsBy ((c :: w') ++ ' ' :: joinSp (x :: xs)) = (c :: w') :: x :: xs
      rw [List.cons_append, wordsBy_cons,
        if_neg (show ¬(isPySpace c = true) by simp [hc]),
        takeWhile_append_of_all w' (' ' :: joinSp (x :: xs))
          (fun y hy => by simp [hw' y hy]),
        dropWhile_append_of_all w' (' ' :: joinSp (x :: xs))
          (fun y hy => by simp [hw' y hy]),
        List.takeWhile_cons, if_neg (by decide), List.append_nil,
        List.dropWhile_cons, if_neg (by decide),
        wordsBy_cons, if_pos (by decide),
        wordsBy_joinSp (x :: xs) (fun y hy => h y (List.mem_cons_of_mem _ hy))]

/-- Dropping leading whitespace from a non-empty list with a
non-whitespace last character leaves a non-empty list with the same
property. -/
theorem dropWhile_ws_of_lastNotWs : ∀ l : List Char, l ≠ [] →
    lastNotWs l = true →
    l.dropWhile isPySpace ≠ [] ∧ lastNotWs (l.dropWhile isPySpace) = true
  | [], hne, _ => absurd rfl hne
  | [c], _, h => by
    have hc : isPySpace c = false := by simpa [lastNotWs] using h
    rw [List.dropWhile_cons, if_neg (by simp [hc])]
    exact ⟨by simp, h⟩
  | c :: x :: xs, _, h => by
    have ht : lastNotWs (x :: xs) = true := h
    rw [List.dropWhile_cons]
    by_cases hc : isPySpace c
    · rw [if_pos (by simp [hc])]
      exact dropWhile_ws_of_lastNotWs (x :: xs) (by simp) ht
    · rw [if_neg (by simpa using hc)]
      exact ⟨by simp, h⟩

/-- A non-empty list ending in non-whitespace splits into at least one word. -/
theorem wordsBy_ne_nil_of_lastNotWs (l : List Char) (hne : l ≠ [])
    (hlast : lastNotWs l = true) : wordsBy l ≠ [] := by
  obtain ⟨hd_ne, -⟩ := dropWhile_ws_of_lastNotWs l hne hlast
  rw [← wordsBy_dropWhile l]
  cases hD : l.dropWhile isPySpace with
  | nil => exact absurd hD hd_ne
  | cons c t =>
    have hc : isPySpace c = false := by
      have hh := headNotWs_dropWhile l
      rw [hD] at hh
      simpa [headNotWs] using hh
    rw [wordsBy_cons, if_neg (by simp [hc])]
    simp

/-- Collapsing whitespace runs of a list with no trailing whitespace gives
the space-join of its words, with one leading space when the list itself
starts with whitespace. -/
theorem collapse_eq_join : ∀ l : List Char, lastNotWs l = true →
    collapseWs l = if headNotWs l = true then joinSp (wordsBy l)
      else ' ' :: joinSp (wordsBy l)
  | [], _ => by
    rw [collapseWs_nil, wordsBy_nil]
    rfl
  | [c], h => by
    have hc : isPySpace c = false := by simpa [lastNotWs] using h
    rw [collapseWs_cons, if_neg (show ¬(isPySpace c = true) by simp [hc]),
      if_pos (show headNotWs [c] = true by simp [headNotWs, hc]),
      wordsBy_cons, if_neg (show ¬(isPySpace c = true) by simp [hc])]
    simp only [List.takeWhile_nil, List.dropWhile_nil]
    rw [collapseWs_nil, wordsBy_nil]
    rfl
  | c :: x :: xs, h => by
    have ht : lastNotWs (x :: xs) = true := h
    by_cases hc : isPySpace c = true
    · rw [collapseWs_cons, if_pos hc]
      obtain ⟨hne, hlast⟩ := dropWhile_ws_of_lastNotWs (x :: xs) (by simp) ht
      have hhead := headNotWs_dropWhile (x :: xs)
      have ih := collapse_eq_join ((x :: xs).dropWhile isPySpace) hlast
      rw [if_pos hhead] at ih
      rw [ih, wordsBy_dropWhile (x :: xs),
        if_neg (show ¬(headNotWs (c :: x :: xs) = true) by
          simp [headNotWs, hc]),
        wordsBy_cons c (x :: xs), if_pos hc]
    · rw [collapseWs_cons, if_neg hc,
        if_pos (show headNotWs (c :: x :: xs) = true by simp [headNotWs, hc]),
        wordsBy_cons c (x :: xs), if_neg hc, joinSp_cons_head]
      by_cases hx : isPySpace x = true
      · rw [List.takeWhile_cons,
          if_neg (show ¬((fun y => !isPySpace y) x = true) by simp [hx]),
          List.dropWhile_cons,
          if_neg (show ¬((fun y => !isPySpace y) x = true) by simp [hx])]
        have ih := collapse_eq_join (x :: xs) ht
        rw [if_neg (show ¬(headNotWs (x :: xs) = true) by
          simp [headNotWs, hx])] at ih
        rw [ih]
        cases hW : wordsBy (x :: xs) with
        | nil => exact absurd hW (wordsBy_ne_nil_of_lastNotWs (x :: xs) (by simp) ht)
        | cons w2 tl => rfl
      · rw [List.takeWhile_cons,
          if_pos (show (fun y => !isPySpace y) x = true by simp [hx]),
          List.dropWhile_cons,
          if_pos (show (fun y => !isPySpace y) x = true by simp [hx])]
        have ih := collapse_eq_join (x :: xs) ht
        rw [if_pos (show headNotWs (x :: xs) = true by simp [headNotWs, hx])] at ih
        rw [ih, wordsBy_cons x xs, if_neg hx]
termination_by l _ => l.length
decreasing_by
  · have hle := (List.dropWhile_sublist (l := x :: xs) isPySpace).length_le
    simp at hle ⊢
    omega
  · simp
  · simp

/-- A join of non-empty whitespace-free words starts with a non-whitespace
character. -/
theorem headNotWs_joinSp : ∀ W : List (List Char),
    (∀ w ∈ W, w ≠ [] ∧ ∀ c ∈ w, isPySpace c = false) →
    headNotWs (joinSp W) = true
  | [], _ => rfl
  | w :: tail, h => by
    obtain ⟨hw, hcs⟩ := h w (List.mem_cons_self w tail)
    obtain ⟨c, w', rfl⟩ : ∃ c w', w = c :: w' := by
      cases w with
      | nil => exact absurd rfl hw
      | cons c w' => exact ⟨c, w', rfl⟩
    rw [joinSp_cons_head]
    show (!isPySpace c) = true
    simp [hcs c (List.mem_cons_self c w')]

/-- A whitespace-free list ends with a non-whitespace character. -/
theorem lastNotWs_of_all : ∀ w : List Char,
    (∀ c ∈ w, isPySpace c = false) → lastNotWs w = true
  | [], _ => rfl
  | [c], h => by
    show (!isPySpace c) = true
    simp [h c (List.mem_cons_self c [])]
  | c :: x :: xs, h => by
    show lastNotWs (x :: xs) = true
    exact lastNotWs_of_all (x :: xs) (fun y hy => h y (List.mem_cons_of_mem c hy))

/-- The last character of an append with a non-empty tail comes from the
tail. -/
theorem lastNotWs_append : ∀ (a b : List Char), b ≠ [] →
    lastNotWs (a ++ b) = lastNotWs b
  | [], _, _ => rfl
  | c :: a', b, hb => by
    have ih := lastNotWs_append a' b hb
    cases ha' : a' ++ b with
    | nil => exact absurd (List.append_eq_nil.mp ha').2 hb
    | cons y ys =>
      calc lastNotWs (c :: a' ++ b) = lastNotWs (c :: y :: ys) := by
            rw [List.cons_append, ha']
        _ = lastNotWs (y :: ys) := rfl
        _ = lastNotWs (a' ++ b) := by rw [ha']
        _ = lastNotWs b := ih

/-- A join of non-empty whitespace-free words ends with a non-whitespace
character. -/
theorem lastNotWs_joinSp : ∀ W : List (List Char),
    (∀ w ∈ W, w ≠ [] ∧ ∀ c ∈ w, isPySpace c = false) →
    lastNotWs (joinSp W) = true
  | [], _ => rfl
  | [w], h => by
    show lastNotWs w = true
    exact lastNotWs_of_all w (h w (List.mem_cons_self w [])).2
  | w :: x :: xs, h => by
    obtain ⟨hx, -⟩ := h x (List.mem_cons_of_mem w (List.mem_cons_self x xs))
    have hJ : joinSp (x :: xs) ≠ [] := joinSp_ne_nil x xs hx
    show lastNotWs (w ++ ' ' :: joinSp (x :: xs)) = true
    rw [lastNotWs_append w (' ' :: joinSp (x :: xs)) (by simp)]
    cases hJ' : joinSp (x :: xs) with
    | nil => exact absurd hJ' hJ
    | cons j js =>
      show lastNotWs (j :: js) = true
      rw [← hJ']
      exact lastNotWs_joinSp (x :: xs) (fun y hy => h y (List.mem_cons_of_mem w hy))

/-- Constructor injectivity for `String.mk`. -/
theorem string_mk_inj {a b : List Char} (e : String.mk a = String.mk b) :
    a = b :=
  congrArg String.data e

/-- C9: `clean_text` is idempotent — cleaning an already-cleaned string
changes nothing. -/
theorem clean_text_idempotent (s : String) :
    clean_text (clean_text s) = clean_text s := by
  by_cases hs : s = ""
  · subst hs
    rfl
  · have hW := wordsBy_props (pyStripChars s.toList)
    have hhead := headNotWs_pyStripChars s.toList
    have hlast := lastNotWs_pyStripChars s.toList
    have hJ := collapse_eq_join (pyStripChars s.toList) hlast
    rw [if_pos hhead] at hJ
    have hclean : clean_text s =
        String.mk (joinSp (wordsBy (pyStripChars s.toList))) := by
      unfold clean_text
      rw [if_neg hs, hJ]
    set W := wordsBy (pyStripChars s.toList) with hWdef
    rw [hclean]
    by_cases ht : joinSp W = []
    · rw [ht]
      rfl
    · unfold clean_text
      rw [if_neg (show ¬(String.mk (joinSp W) = "") by
        intro e
        exact ht (string_mk_inj (e : String.mk (joinSp W) = String.mk [])))]
      have hh2 : headNotWs (joinSp W) = true := headNotWs_joinSp W hW
      have hl2 : lastNotWs (joinSp W) = true := lastNotWs_joinSp W hW
      show String.mk (collapseWs (pyStripChars (joinSp W))) = String.mk (joinSp W)
      rw [pyStripChars_of_normal (joinSp W) hh2 hl2]
      have hJ2 := collapse_eq_join (joinSp W) hl2
      rw [if_pos hh2] at hJ2
      rw [hJ2, wordsBy_joinSp W hW]

/-- The default value of `getLastD` on a non-empty list is irrelevant and
the result is a member. -/
theorem getLastD_cons_mem : ∀ (l : List (List Char)) (x d : List Char),
    (x :: l).getLastD d ∈ x :: l
  | [], x, d => by simp [List.getLastD]
  | y :: l', x, d => by
    rw [List.getLastD_cons]
    exact List.mem_cons_of_mem x (getLastD_cons_mem l' y x)

/-- Rejoining all but the last word with the last word restores the join
of the whole list. -/
theorem joinSp_dropLast_getLastD : ∀ (T : List (List Char)) (a b : List Char),
    joinSp ((a :: b :: T).dropLast) ++ ' ' :: (a :: b :: T).getLastD [] =
      joinSp (a :: b :: T)
  | [], a, b => rfl
  | c :: T', a, b => by
    have ih := joinSp_dropLast_getLastD T' b c
    calc joinSp ((a :: b :: c :: T').dropLast) ++
          ' ' :: (a :: b :: c :: T').getLastD []
        = a ++ ' ' :: (joinSp ((b :: c :: T').dropLast) ++
            ' ' :: (b :: c :: T').getLastD []) := by
          show (a ++ ' ' :: joinSp ((b :: c :: T').dropLast)) ++
            ' ' :: (b :: c :: T').getLastD [] = _
          rw [List.append_assoc]
          rfl
      _ = a ++ ' ' :: joinSp (b :: c :: T') := by rw [ih]
      _ = joinSp (a :: b :: c :: T') := rfl

/-- C10: `split_name` loses no tokens — rejoining its two components (the
first alone when the last is empty, otherwise separated by one space)
yields exactly the whitespace-normalized trimmed input `clean_text`. -/
theorem split_name_rejoin (s : String) :
    (if (split_name s).2 = "" then (split_name s).1
      else (split_name s).1 ++ " " ++ (split_name s).2) = clean_text s := by
  by_cases hs : s = ""
  · subst hs
    rfl
  · have hW := wordsBy_props (pyStripChars s.toList)
    have hhead := headNotWs_pyStripChars s.toList
    have hlast := lastNotWs_pyStripChars s.toList
    have hJ := collapse_eq_join (pyStripChars s.toList) hlast
    rw [if_pos hhead] at hJ
    have hclean : clean_text s =
        String.mk (joinSp (wordsBy (pyStripChars s.toList))) := by
      unfold clean_text
      rw [if_neg hs, hJ]
    rw [hclean]
    rcases hWe : wordsBy (pyStripChars s.toList) with _ | ⟨t1, _ | ⟨t2, _ | ⟨t3, rest⟩⟩⟩
    · have hsp : split_name s = ("", "") := by
        unfold split_name
        rw [if_neg hs, hWe]
      rw [hsp, if_pos (show (("" : String), ("" : String)).2 = "" from rfl)]
      rfl
    · have hsp : split_name s = (String.mk t1, "") := by
        unfold split_name
        rw [if_neg hs, hWe]
      rw [hsp, if_pos (show ((String.mk t1, ("" : String)).2 = "") from rfl)]
      rfl
    · rw [hWe] at hW
      have ht2 : t2 ≠ [] := (hW t2 (by simp)).1
      have hsp : split_name s = (String.mk t1, String.mk t2) := by
        unfold split_name
        rw [if_neg hs, hWe]
      rw [hsp, if_neg (show ¬((String.mk t1, String.mk t2).2 = "") by
        intro e
        exact ht2 (string_mk_inj (e : String.mk t2 = String.mk [])))]
      show String.mk ((t1 ++ [' ']) ++ t2) = String.mk (t1 ++ ' ' :: t2)
      rw [List.append_assoc]
      rfl
    · rw [hWe] at hW
      have hLmem := getLastD_cons_mem (t2 :: t3 :: rest) t1 []
      have hLne : (t1 :: t2 :: t3 :: rest).getLastD [] ≠ [] :=
        (hW _ hLmem).1
      have hsp : split_name s =
          (String.mk (joinSp (t1 :: t2 :: t3 :: rest).dropLast),
           String.mk ((t1 :: t2 :: t3 :: rest).getLastD [])) := by
        unfold split_name
        rw [if_neg hs, hWe]
      rw [hsp, if_neg (show ¬((String.mk (joinSp (t1 :: t2 :: t3 :: rest).dropLast),
          String.mk ((t1 :: t2 :: t3 :: rest).getLastD [])).2 = "") by
        intro e
        exact hLne (string_mk_inj
          (e : String.mk ((t1 :: t2 :: t3 :: rest).getLastD []) = String.mk [])))]
      show String.mk ((joinSp ((t1 :: t2 :: t3 :: rest).dropLast) ++ [' ']) ++
          (t1 :: t2 :: t3 :: rest).getLastD []) =
        String.mk (joinSp (t1 :: t2 :: t3 :: rest))
      refine congrArg String.mk ?_
      rw [List.append_assoc]
      exact joinSp_dropLast_getLastD (t3 :: rest) t1 t2

end BodyBack
